import Mathlib

/-!
# Solder-Curseforge-Updater: verification of the reconciliation / resolution pipeline

Shallow embedding of the core of `main.py` (filename sanitization, build-manifest
partitioning, cache reconciliation, verified downloading, two-tier index
resolution, override assembly, and the rate-limit gate), with theorems settling
the specification claims about it.

Strings are modelled as lists of characters (`Str`), directories and override
trees as association lists from names/paths to digests/contents, network
responses as explicit oracles, and time as rational numbers.
-/

namespace Solder

/-- Python strings, modelled as lists of characters. -/
abbrev Str := List Char

/-- Python `s.lower()` (per-character lowering). -/
def pyLower (s : Str) : Str := s.map Char.toLower

/-- Python `s.strip()`: drop leading and trailing whitespace. -/
def pyStrip (s : Str) : Str :=
  ((s.dropWhile Char.isWhitespace).reverse.dropWhile Char.isWhitespace).reverse

/-- Python `needle in hay` for strings: substring containment. -/
def containsSub (hay needle : Str) : Bool :=
  match hay with
  | [] => needle.isEmpty
  | c :: rest => needle.isPrefixOf (c :: rest) || containsSub rest needle

/-- Auxiliary recursion for `pyReplace`: each step consumes at least one
character of `s`, so any `fuel ≥ s.length` computes the replacement in full
(the fuel argument only makes the recursion structural). -/
def pyReplaceAux (pat rep : Str) : Nat → Str → Str
  | _, [] => []
  | 0, s => s
  | fuel + 1, c :: rest =>
    if pat.isPrefixOf (c :: rest) then
      rep ++ pyReplaceAux pat rep fuel (List.drop (pat.length - 1) rest)
    else
      c :: pyReplaceAux pat rep fuel rest

/-- Python `s.replace(pat, rep)`: replace each non-overlapping occurrence,
left to right.  (The source only ever calls it with a nonempty pattern or with
both pattern and replacement empty, where Python returns `s` unchanged.) -/
def pyReplace (s pat rep : Str) : Str :=
  match pat with
  | [] => s
  | _ :: _ => pyReplaceAux pat rep s.length s

/-- The character class of the sanitizer regex `[<>:"/\\|?*]` in `main.py`. -/
def illegalChars : List Char := ['<', '>', ':', '"', '/', '\\', '|', '?', '*']

/-- `os.path.basename`: the part of the path after the last `/`. -/
def basename (s : Str) : Str :=
  (s.reverse.takeWhile (fun c => c ≠ '/')).reverse

/-- `s.split('?')[0]`: the part before the first `?`. -/
def beforeQuery (s : Str) : Str := s.takeWhile (fun c => c ≠ '?')

/-- `re.sub(r'[<>:"/\\|?*]', '_', s)`. -/
def replaceIllegal (s : Str) : Str :=
  s.map (fun c => if c ∈ illegalChars then '_' else c)

/-- `sanitize_filename` from `main.py`: basename, strip the query string,
replace filesystem-illegal characters with `_`. -/
def sanitize_filename (url : Str) : Str :=
  replaceIllegal (beforeQuery (basename url))

/-! ## Basic facts about the sanitizer -/

theorem mem_replaceIllegal_not_illegal {c : Char} {s : Str}
    (hc : c ∈ replaceIllegal s) : c ∉ illegalChars := by
  simp only [replaceIllegal, List.mem_map] at hc
  obtain ⟨a, _, ha⟩ := hc
  by_cases h : a ∈ illegalChars
  · simp only [h, if_pos] at ha
    subst ha
    decide
  · simp only [h, if_neg, not_false_iff] at ha
    subst ha
    exact h

theorem sanitize_no_illegal {c : Char} {url : Str}
    (hc : c ∈ sanitize_filename url) : c ∉ illegalChars :=
  mem_replaceIllegal_not_illegal hc

theorem takeWhile_eq_self_of_all {p : Char → Bool} {s : Str}
    (h : ∀ c ∈ s, p c = true) : s.takeWhile p = s := by
  induction s with
  | nil => rfl
  | cons c rest ih =>
    have hc := h c (List.mem_cons_self c rest)
    simp only [List.takeWhile_cons, hc, if_pos]
    exact congrArg (c :: ·) (ih fun x hx => h x (List.mem_cons_of_mem c hx))

theorem basename_eq_self_of_no_slash {s : Str}
    (h : ∀ c ∈ s, c ≠ '/') : basename s = s := by
  unfold basename
  rw [takeWhile_eq_self_of_all, List.reverse_reverse]
  intro c hc
  simp only [decide_eq_true_eq]
  exact h c (List.mem_reverse.mp hc)

theorem beforeQuery_eq_self_of_no_query {s : Str}
    (h : ∀ c ∈ s, c ≠ '?') : beforeQuery s = s := by
  unfold beforeQuery
  exact takeWhile_eq_self_of_all fun c hc => by
    simp only [decide_eq_true_eq]; exact h c hc

theorem replaceIllegal_eq_self_of_clean {s : Str}
    (h : ∀ c ∈ s, c ∉ illegalChars) : replaceIllegal s = s := by
  unfold replaceIllegal
  induction s with
  | nil => rfl
  | cons c rest ih =>
    simp only [List.map_cons]
    rw [if_neg (h c (List.mem_cons_self c rest))]
    exact congrArg (c :: ·) (ih fun x hx => h x (List.mem_cons_of_mem c hx))

/-- **C10.** `sanitize_filename` is idempotent, and its output contains no
query-string separator and none of the filesystem-illegal characters. -/
theorem C10_sanitize_idempotent_and_clean (url : Str) :
    sanitize_filename (sanitize_filename url) = sanitize_filename url ∧
    ∀ c ∈ sanitize_filename url,
      c ≠ '?' ∧ c ∉ ['<', '>', ':', '"', '/', '\\', '|', '*'] := by
  constructor
  · have hclean : ∀ c ∈ sanitize_filename url, c ∉ illegalChars :=
      fun c hc => sanitize_no_illegal hc
    have hslash : ∀ c ∈ sanitize_filename url, c ≠ '/' := by
      intro c hc heq
      exact hclean c hc (by rw [heq]; decide)
    have hq : ∀ c ∈ sanitize_filename url, c ≠ '?' := by
      intro c hc heq
      exact hclean c hc (by rw [heq]; decide)
    have hstep : sanitize_filename (sanitize_filename url) =
        replaceIllegal (beforeQuery (basename (sanitize_filename url))) := rfl
    rw [hstep, basename_eq_self_of_no_slash hslash,
      beforeQuery_eq_self_of_no_query hq, replaceIllegal_eq_self_of_clean hclean]
  · intro c hc
    have hclean := sanitize_no_illegal hc
    constructor
    · intro heq
      exact hclean (by rw [heq]; decide)
    · intro hmem
      apply hclean
      simp only [illegalChars]
      simp only [List.mem_cons, List.mem_singleton] at hmem ⊢
      tauto

/-! ## Data model

`Mod` corresponds to the dictionaries built by `fetch_mod_list` in `main.py`
(keys `name`, `pretty_name`, `url`, `md5`, `version`, `author`, `link`). -/

structure Mod where
  name : Str
  pretty_name : Str
  url : Str
  md5 : Str
  version : Str
  author : Str
  link : Str
deriving DecidableEq, Repr

/-- A raw entry of the build manifest's `mods` array, as delivered by the
build API: `name`, `url` and `md5` are always present, the remaining keys are
read with `.get` defaults in `fetch_mod_list`. -/
structure RawEntry where
  name : Str
  url : Str
  md5 : Str
  pretty_name : Option Str
  version : Option Str
  author : Option Str
  link : Option Str
deriving DecidableEq, Repr

/-! ## Directory stores

The downloads directory and the overrides tree are modelled as association
lists from a key (filename, or path) to the stored digest/content.  A real
directory has unique names, which theorems assume through `Nodup` hypotheses
where needed. -/

/-- Write (create or overwrite) a key in a store. -/
def storeWrite {α β : Type} [BEq α] (fs : List (α × β)) (k : α) (v : β) :
    List (α × β) :=
  (k, v) :: fs.filter (fun e => !(e.1 == k))

/-- Delete a key from a store. -/
def storeErase {α β : Type} [BEq α] (fs : List (α × β)) (k : α) :
    List (α × β) :=
  fs.filter (fun e => !(e.1 == k))

theorem lookup_filter_out {α β : Type} [BEq α] [LawfulBEq α]
    (fs : List (α × β)) (k : α) :
    (fs.filter (fun e => !(e.1 == k))).lookup k = none := by
  induction fs with
  | nil => rfl
  | cons e rest ih =>
    by_cases h : e.1 = k
    · simp only [List.filter_cons, h, beq_self_eq_true, Bool.not_true,
        cond_false]
      exact ih
    · have hbe : (e.1 == k) = false := beq_eq_false_iff_ne.mpr h
      have hkb : (k == e.1) = false :=
        beq_eq_false_iff_ne.mpr (fun hh => h hh.symm)
      simp only [List.filter_cons, hbe, Bool.not_false, cond_true,
        List.lookup, hkb]
      exact ih

theorem lookup_filter_ne {α β : Type} [BEq α] [LawfulBEq α]
    (fs : List (α × β)) (k q : α) (h : k ≠ q) :
    (fs.filter (fun e => !(e.1 == k))).lookup q = fs.lookup q := by
  induction fs with
  | nil => rfl
  | cons e rest ih =>
    by_cases he : e.1 = k
    · have hek : (e.1 == k) = true := beq_iff_eq.mpr he
      have hqe : (q == e.1) = false := by
        rw [he]
        exact beq_eq_false_iff_ne.mpr (fun hh => h hh.symm)
      simp only [List.filter_cons, hek, Bool.not_true, cond_false,
        List.lookup, hqe]
      exact ih
    · have hek : (e.1 == k) = false := beq_eq_false_iff_ne.mpr he
      simp only [List.filter_cons, hek, Bool.not_false, cond_true, List.lookup]
      by_cases hq : q = e.1
      · simp only [hq, beq_self_eq_true]
      · have : (q == e.1) = false := beq_eq_false_iff_ne.mpr hq
        simp only [this]
        exact ih

theorem lookup_storeWrite_self {α β : Type} [BEq α] [LawfulBEq α]
    (fs : List (α × β)) (k : α) (v : β) :
    (storeWrite fs k v).lookup k = some v := by
  simp [storeWrite, List.lookup]

theorem lookup_storeWrite_ne {α β : Type} [BEq α] [LawfulBEq α]
    (fs : List (α × β)) (k q : α) (v : β) (h : k ≠ q) :
    (storeWrite fs k v).lookup q = fs.lookup q := by
  have hqk : (q == k) = false := beq_eq_false_iff_ne.mpr (fun hh => h hh.symm)
  simp only [storeWrite, List.lookup, hqk]
  exact lookup_filter_ne fs k q h

theorem lookup_storeErase_self {α β : Type} [BEq α] [LawfulBEq α]
    (fs : List (α × β)) (k : α) :
    (storeErase fs k).lookup k = none :=
  lookup_filter_out fs k

theorem lookup_storeErase_ne {α β : Type} [BEq α] [LawfulBEq α]
    (fs : List (α × β)) (k q : α) (h : k ≠ q) :
    (storeErase fs k).lookup q = fs.lookup q :=
  lookup_filter_ne fs k q h

/-! ## ReconciliationEngine: `compare_mods`

The downloads directory is a store `List (Str × Str)` of
(filename, md5-digest) pairs; `calculate_md5` of a present file returns the
stored digest.  `compare_mods` receives the manifest descriptors as the
concatenation `mod_list + non_mod_list`, exactly as in the source. -/

/-- The validity test of the garbage pass: some manifest descriptor has a
matching (sanitized filename, digest) pair.  Mirrors the inner loop over
`mod_list + non_mod_list` in `compare_mods` (the loop breaks only on a full
match, so it is an existence check over both conditions). -/
def fileValid (mods : List Mod) (filename digest : Str) : Bool :=
  mods.any (fun m => sanitize_filename m.url == filename && m.md5 == digest)

/-- `compare_mods` from `main.py`, with the directory state made explicit.
Returns (directory after the garbage pass, mods_to_download, mods_to_remove).

* garbage pass: every present file with no matching (filename, digest)
  descriptor pair is deleted (`os.remove`);
* diff pass: a descriptor is scheduled for download when its sanitized
  filename is absent from the (post-deletion) directory or present with a
  different digest;
* remove pass: filenames of the pre-pass listing (`existing_mods`, computed by
  `fetch_existing_mods` before any deletion) that match no descriptor's
  sanitized filename. -/
def compare_mods (cache : List (Str × Str)) (mods : List Mod) :
    List (Str × Str) × List Mod × List Str :=
  let valid := cache.filter (fun e => fileValid mods e.1 e.2)
  let toDownload := mods.filter (fun m =>
    match valid.lookup (sanitize_filename m.url) with
    | some d => !(d == m.md5)
    | none => true)
  let toRemove := (cache.map Prod.fst).filter (fun fn =>
    !((mods.map (fun m => sanitize_filename m.url)).contains fn))
  (valid, toDownload, toRemove)

theorem fileValid_iff (mods : List Mod) (fn d : Str) :
    fileValid mods fn d = true ↔
      ∃ m ∈ mods, sanitize_filename m.url = fn ∧ m.md5 = d := by
  simp [fileValid, List.any_eq_true, Bool.and_eq_true, beq_iff_eq]

/-- **C4.** In the garbage pass of `compare_mods`, a cached file with no
matching (sanitized filename, digest) descriptor pair is deleted before
reconciliation completes, and a cached file with a matching pair is kept. -/
theorem C4_garbage_pass (cache : List (Str × Str)) (mods : List Mod)
    (fn d : Str) (hmem : (fn, d) ∈ cache) :
    ((¬ ∃ m ∈ mods, sanitize_filename m.url = fn ∧ m.md5 = d) →
      (fn, d) ∉ (compare_mods cache mods).1) ∧
    ((∃ m ∈ mods, sanitize_filename m.url = fn ∧ m.md5 = d) →
      (fn, d) ∈ (compare_mods cache mods).1) := by
  constructor
  · intro hno hmem2
    have hval : fileValid mods fn d = true :=
      (List.mem_filter.mp hmem2).2
    exact hno ((fileValid_iff mods fn d).mp hval)
  · intro hex
    exact List.mem_filter.mpr ⟨hmem, (fileValid_iff mods fn d).mpr hex⟩

/-- A sample manifest descriptor used by concrete witnesses. -/
def mA : Mod :=
  { name := "ModA".toList
    pretty_name := "Mod A".toList
    url := "http://host/files/modA-1.0.zip?v=3".toList
    md5 := "aabb".toList
    version := "1.0".toList
    author := "author".toList
    link := "https://www.curseforge.com/minecraft/mc-mods/moda".toList }

/-- Witness for C4: a stale cached file (digest mismatch against its
descriptor) is removed by the garbage pass of `compare_mods`. -/
theorem C4_garbage_pass_witness :
    ("modA-1.0.zip".toList, "ffff".toList) ∈
      [("modA-1.0.zip".toList, "ffff".toList)] ∧
    ("modA-1.0.zip".toList, "ffff".toList) ∉
      (compare_mods [("modA-1.0.zip".toList, "ffff".toList)] [mA]).1 :=
  ⟨by decide,
    (C4_garbage_pass [("modA-1.0.zip".toList, "ffff".toList)] [mA]
      "modA-1.0.zip".toList "ffff".toList (by decide)).1 (by decide)⟩

/-- **C3 (amended).** Running `compare_mods` a second time immediately after
a first run, manifest unchanged and with no fetch in between, deletes nothing
further, reports an empty removal set, and returns the *same* download set as
the first run (not, in general, an empty one). -/
theorem C3_amended (cache : List (Str × Str)) (mods : List Mod) :
    compare_mods (compare_mods cache mods).1 mods =
      ((compare_mods cache mods).1, (compare_mods cache mods).2.1, []) := by
  have hval : ∀ e ∈ (compare_mods cache mods).1, fileValid mods e.1 e.2 := by
    intro e he
    exact (List.mem_filter.mp he).2
  have hidem : (compare_mods cache mods).1.filter
      (fun e => fileValid mods e.1 e.2) = (compare_mods cache mods).1 :=
    List.filter_eq_self.mpr hval
  have hremove : ((compare_mods cache mods).1.map Prod.fst).filter
      (fun fn =>
        !((mods.map (fun m => sanitize_filename m.url)).contains fn)) = [] := by
    apply List.filter_eq_nil_iff.mpr
    intro fn hfn
    simp only [List.mem_map] at hfn
    obtain ⟨e, he, rfl⟩ := hfn
    obtain ⟨m, hm, hs, _⟩ := (fileValid_iff mods e.1 e.2).mp (hval e he)
    simp only [Bool.not_eq_true', Bool.not_eq_false]
    have : e.1 ∈ mods.map (fun m => sanitize_filename m.url) :=
      List.mem_map.mpr ⟨m, hm, hs⟩
    exact List.elem_iff.mpr this
  show ((compare_mods cache mods).1.filter (fun e => fileValid mods e.1 e.2),
      _, _) = _
  rw [hidem, hremove]
  rfl

/-- Counterexample to C3 as stated: with an empty cache and a one-descriptor
manifest, the second consecutive `compare_mods` run still returns that
descriptor in its download set, which is not empty. -/
theorem C3_counterexample :
    (compare_mods (compare_mods [] [mA]).1 [mA]).2.1 = [mA] ∧
    [mA] ≠ ([] : List Mod) := by
  constructor
  · decide
  · decide

/-! ## Fetcher: `download_mods`

The network is an oracle `net : Mod → DownloadOutcome` saying, for each
descriptor, whether `requests.get` raises a transport error or delivers a
body; a delivered body is summarized by the digest of the bytes written to
disk.  A transport error is modelled as raising before the body is written
(`raise_for_status`), which is the branch the source handles. -/

inductive DownloadOutcome where
  | transportError
  | content (digest : Str)
deriving DecidableEq, Repr

/-- The inner download block of `download_mods` for one descriptor that was
not skipped: stream the body, verify the digest, delete the file on mismatch
(`os.remove`), and report the path only on a verified download. -/
def performDownload (net : Mod → DownloadOutcome) (m : Mod)
    (dir : List (Str × Str)) : List Str × List (Str × Str) :=
  let fn := sanitize_filename m.url
  match net m with
  | .transportError => ([], dir)
  | .content dg =>
    if dg == m.md5 then ([fn], storeWrite dir fn dg)
    else ([], storeErase (storeWrite dir fn dg) fn)

/-- One iteration of the `download_mods` loop: skip when a cached copy with
the expected digest already exists, otherwise download and verify. -/
def downloadStep (net : Mod → DownloadOutcome) (m : Mod)
    (dir : List (Str × Str)) : List Str × List (Str × Str) :=
  match dir.lookup (sanitize_filename m.url) with
  | some d => if d == m.md5 then ([], dir) else performDownload net m dir
  | none => performDownload net m dir

/-- `download_mods` from `main.py`: the whole batch, threading the downloads
directory; returns the verified downloaded paths in order. -/
def download_mods (net : Mod → DownloadOutcome) :
    List Mod → List (Str × Str) → List Str × List (Str × Str)
  | [], dir => ([], dir)
  | m :: rest, dir =>
    let r := downloadStep net m dir
    let r2 := download_mods net rest r.2
    (r.1 ++ r2.1, r2.2)

/-- Whether the oracle delivers `m` with the expected digest. -/
def netSuccess (net : Mod → DownloadOutcome) (m : Mod) : Bool :=
  match net m with
  | .content dg => dg == m.md5
  | .transportError => false

theorem downloadStep_lookup_ne (net : Mod → DownloadOutcome) (m : Mod)
    (dir : List (Str × Str)) (fn : Str)
    (h : fn ≠ sanitize_filename m.url) :
    (downloadStep net m dir).2.lookup fn = dir.lookup fn := by
  unfold downloadStep performDownload
  have hne : sanitize_filename m.url ≠ fn := fun hh => h hh.symm
  cases hdir : dir.lookup (sanitize_filename m.url) with
  | some d =>
    by_cases hd : (d == m.md5) = true
    · simp [hd]
    · simp only [Bool.not_eq_true] at hd
      simp only [hd, Bool.false_eq_true, if_false]
      cases net m with
      | transportError => rfl
      | content dg =>
        by_cases hdg : (dg == m.md5) = true
        · simp only [hdg, if_true]
          exact lookup_storeWrite_ne dir _ fn dg hne
        · simp only [Bool.not_eq_true] at hdg
          simp only [hdg, Bool.false_eq_true, if_false]
          rw [lookup_storeErase_ne _ _ fn hne,
            lookup_storeWrite_ne dir _ fn dg hne]
  | none =>
    cases net m with
    | transportError => rfl
    | content dg =>
      by_cases hdg : (dg == m.md5) = true
      · simp only [hdg, if_true]
        exact lookup_storeWrite_ne dir _ fn dg hne
      · simp only [Bool.not_eq_true] at hdg
        simp only [hdg, Bool.false_eq_true, if_false]
        rw [lookup_storeErase_ne _ _ fn hne,
          lookup_storeWrite_ne dir _ fn dg hne]

theorem download_mods_lookup_ne (net : Mod → DownloadOutcome)
    (mods : List Mod) (dir : List (Str × Str)) (fn : Str)
    (h : fn ∉ mods.map (fun m => sanitize_filename m.url)) :
    (download_mods net mods dir).2.lookup fn = dir.lookup fn := by
  induction mods generalizing dir with
  | nil => rfl
  | cons m rest ih =>
    simp only [List.map_cons, List.mem_cons, not_or] at h
    show (download_mods net rest (downloadStep net m dir).2).2.lookup fn = _
    rw [ih _ h.2, downloadStep_lookup_ne net m dir fn h.1]

theorem downloadStep_fresh (net : Mod → DownloadOutcome) (m : Mod)
    (dir : List (Str × Str))
    (h : dir.lookup (sanitize_filename m.url) = none) :
    downloadStep net m dir = performDownload net m dir := by
  unfold downloadStep
  rw [h]

/-- **C5.** For a batch running over a fresh target directory with pairwise
distinct sanitized filenames: the returned paths are exactly those of the
descriptors whose download arrived with the declared digest (so a single
item's transport error or digest mismatch never aborts the batch), a
descriptor whose downloaded digest mismatches is deleted from the target
directory and excluded from the returned list, and a verified download is
left in place. -/
theorem C5_fetch_integrity (net : Mod → DownloadOutcome)
    (mods : List Mod) (dir : List (Str × Str))
    (hnodup : (mods.map (fun m => sanitize_filename m.url)).Nodup)
    (hfresh : ∀ m ∈ mods, dir.lookup (sanitize_filename m.url) = none) :
    (download_mods net mods dir).1 =
      (mods.filter (netSuccess net)).map (fun m => sanitize_filename m.url) ∧
    ∀ m ∈ mods,
      (∀ dg, net m = .content dg → dg ≠ m.md5 →
        (download_mods net mods dir).2.lookup (sanitize_filename m.url)
          = none) ∧
      (net m = .content m.md5 →
        (download_mods net mods dir).2.lookup (sanitize_filename m.url)
          = some m.md5) := by
  induction mods generalizing dir with
  | nil =>
    refine ⟨rfl, ?_⟩
    intro m hm
    cases hm
  | cons m rest ih =>
    rw [List.map_cons] at hnodup
    have hnodup' := List.nodup_cons.mp hnodup
    have hnotin : sanitize_filename m.url ∉
        rest.map (fun m' => sanitize_filename m'.url) := hnodup'.1
    have hfm : dir.lookup (sanitize_filename m.url) = none :=
      hfresh m (List.mem_cons_self m rest)
    have hunfold : download_mods net (m :: rest) dir =
        ((downloadStep net m dir).1 ++
          (download_mods net rest (downloadStep net m dir).2).1,
         (download_mods net rest (downloadStep net m dir).2).2) := rfl
    have hstep := downloadStep_fresh net m dir hfm
    have hne_rest : ∀ m' ∈ rest,
        sanitize_filename m'.url ≠ sanitize_filename m.url := by
      intro m' hm' heq
      exact hnotin (heq ▸ List.mem_map.mpr ⟨m', hm', rfl⟩)
    have hfresh' : ∀ m' ∈ rest,
        (downloadStep net m dir).2.lookup (sanitize_filename m'.url) = none :=
      fun m' hm' => by
        rw [downloadStep_lookup_ne net m dir _ (hne_rest m' hm')]
        exact hfresh m' (List.mem_cons_of_mem m hm')
    obtain ⟨ihfiles, ihstate⟩ :=
      ih (downloadStep net m dir).2 hnodup'.2 hfresh'
    have hself : ∀ v,
        (downloadStep net m dir).2.lookup (sanitize_filename m.url) = v →
        (download_mods net rest (downloadStep net m dir).2).2.lookup
          (sanitize_filename m.url) = v := by
      intro v hv
      rw [download_mods_lookup_ne net rest _ _ hnotin]
      exact hv
    constructor
    · rw [hunfold]
      cases hnet : net m with
      | transportError =>
        have h1 : (downloadStep net m dir).1 = [] := by
          rw [hstep]
          simp [performDownload, hnet]
        have hns : netSuccess net m = false := by
          simp [netSuccess, hnet]
        simp only [h1, List.nil_append, List.filter_cons, hns,
          Bool.false_eq_true, if_false]
        exact ihfiles
      | content dg =>
        by_cases hdg : dg = m.md5
        · have h1 : (downloadStep net m dir).1 = [sanitize_filename m.url] := by
            rw [hstep]
            simp [performDownload, hnet, hdg]
          have hns : netSuccess net m = true := by
            simp [netSuccess, hnet, hdg]
          simp only [h1, List.filter_cons, hns, if_true, List.map_cons,
            List.cons_append, List.nil_append]
          exact congrArg _ ihfiles
        · have hbeq : (dg == m.md5) = false := beq_eq_false_iff_ne.mpr hdg
          have h1 : (downloadStep net m dir).1 = [] := by
            rw [hstep]
            simp [performDownload, hnet, hbeq]
          have hns : netSuccess net m = false := by
            simp [netSuccess, hnet, hbeq]
          simp only [h1, List.nil_append, List.filter_cons, hns,
            Bool.false_eq_true, if_false]
          exact ihfiles
    · intro m' hm'
      rcases List.mem_cons.mp hm' with rfl | hm'rest
      · constructor
        · intro dg hnet hdgne
          have hbeq : (dg == m'.md5) = false := beq_eq_false_iff_ne.mpr hdgne
          have h2 : (downloadStep net m' dir).2.lookup
              (sanitize_filename m'.url) = none := by
            rw [hstep]
            simp only [performDownload, hnet, hbeq, Bool.false_eq_true,
              if_false]
            exact lookup_storeErase_self _ _
          rw [hunfold]
          exact hself none h2
        · intro hnet
          have h2 : (downloadStep net m' dir).2.lookup
              (sanitize_filename m'.url) = some m'.md5 := by
            rw [hstep]
            simp only [performDownload, hnet, beq_self_eq_true, if_true]
            exact lookup_storeWrite_self _ _ _
          rw [hunfold]
          exact hself (some m'.md5) h2
      · have := ihstate m' hm'rest
        rw [hunfold]
        exact this

/-- The network oracle in which every download arrives intact except the mod
named `Bad`, whose body arrives corrupted. -/
def netSample (m : Mod) : DownloadOutcome :=
  if m.name = "Bad".toList then .content "0000".toList else .content m.md5

/-- A second sample descriptor whose download arrives corrupted under
`netSample`. -/
def mBad : Mod :=
  { name := "Bad".toList
    pretty_name := "Bad".toList
    url := "http://host/files/bad-2.0.zip".toList
    md5 := "ccdd".toList
    version := "2.0".toList
    author := "author".toList
    link := [] }

/-- Witness for C5: in a two-descriptor batch where the second item's digest
mismatches, the first item is downloaded and kept, the corrupt file is
deleted and excluded from the returned paths, and the batch still returns the
successful path. -/
theorem C5_fetch_integrity_witness :
    (download_mods netSample [mA, mBad] []).1 = [sanitize_filename mA.url] ∧
    (download_mods netSample [mA, mBad] []).2.lookup
      (sanitize_filename mBad.url) = none := by
  have h := C5_fetch_integrity netSample [mA, mBad] [] (by decide)
    (by intro m _; rfl)
  refine ⟨?_, ?_⟩
  · rw [h.1]
    decide
  · exact (h.2 mBad (by decide)).1 "0000".toList (by decide) (by decide)

/-! ## Cancellation (claim C6)

`download_mods` in `main.py` takes no cancellation signal at all; `main`
consults the shared `update_running` flag only between pipeline stages
(immediately before the download step, and once more after the whole batch
has returned). -/

/-- Modelled from the spec: the claimed fetch behaviour that checks a
cancellation signal between items, where `cancel k` tells whether the signal
is observed raised after `k` items have completed, and on a raised signal the
remaining items are skipped and the completed paths returned. -/
def fetchSpecCancel (net : Mod → DownloadOutcome) (cancel : Nat → Bool) :
    List Mod → List (Str × Str) → Nat → List Str × List (Str × Str)
  | [], dir, _ => ([], dir)
  | m :: rest, dir, k =>
    if cancel k then ([], dir)
    else
      let r := downloadStep net m dir
      let r2 := fetchSpecCancel net cancel rest r.2 (k + r.1.length)
      (r.1 ++ r2.1, r2.2)

/-- The download stage of `main` (lines 746-750): run the entire batch, then
test the `update_running` flag; when the flag signals cancellation `main`
returns (the pipeline does not proceed), while the downloads directory keeps
everything the batch wrote. -/
structure StageOutcome where
  files : List Str
  dirState : List (Str × Str)
  proceed : Bool
deriving DecidableEq, Repr

/-- `main`'s download stage with the cancellation flag made explicit
(`cancelSet` = the flag was cleared by the operator during the batch). -/
def mainDownloadStage (net : Mod → DownloadOutcome) (cancelSet : Bool)
    (mods : List Mod) (dir : List (Str × Str)) : StageOutcome :=
  let r := download_mods net mods dir
  { files := r.1, dirState := r.2, proceed := !cancelSet }

/-- A sample network oracle delivering every body intact. -/
def netOk (m : Mod) : DownloadOutcome := .content m.md5

/-- Five sample descriptors with pairwise distinct filenames. -/
def mkSample (tag : Char) : Mod :=
  { name := ['m', tag]
    pretty_name := ['m', tag]
    url := ['h', 't', 't', 'p', ':', '/', '/', 'x', '/', 'm', tag, '.', 'z']
    md5 := ['d', tag]
    version := ['1']
    author := ['u']
    link := [] }

def mods5 : List Mod := ['1', '2', '3', '4', '5'].map mkSample

/-- A cancellation signal raised once two items have completed. -/
def cancelAfter2 (k : Nat) : Bool := decide (2 ≤ k)

/-- Counterexample to C6 as stated: with the signal raised after 2 of 5
completed items, the spec-modelled fetch would return 2 paths, but the code's
`download_mods` consults no signal and returns all 5. -/
theorem C6_counterexample :
    (download_mods netOk mods5 []).1.length = 5 ∧
    (fetchSpecCancel netOk cancelAfter2 mods5 [] 0).1.length = 2 ∧
    (5 : Nat) ≠ 2 := by
  refine ⟨by decide, by decide, by decide⟩

/-- **C6 (amended).** `download_mods` consults no cancellation signal: it
coincides with the spec-modelled cancellable fetch only under a never-raised
signal, and processes every item regardless of the flag; `main` tests the
cancellation flag only after the whole batch has returned, aborting the
pipeline then while preserving all completed downloads. -/
theorem C6_amended (net : Mod → DownloadOutcome) (cancelSet : Bool)
    (mods : List Mod) (dir : List (Str × Str)) (k : Nat) :
    fetchSpecCancel net (fun _ => false) mods dir k =
      download_mods net mods dir ∧
    (mainDownloadStage net cancelSet mods dir).files =
      (download_mods net mods dir).1 ∧
    (mainDownloadStage net cancelSet mods dir).dirState =
      (download_mods net mods dir).2 ∧
    ((mainDownloadStage net cancelSet mods dir).proceed = true ↔
      cancelSet = false) := by
  refine ⟨?_, rfl, rfl, ?_⟩
  · induction mods generalizing dir k with
    | nil => rfl
    | cons m rest ih =>
      show (if false = true then ([], dir)
        else
          ((downloadStep net m dir).1 ++
            (fetchSpecCancel net (fun _ => false) rest
              (downloadStep net m dir).2
              (k + (downloadStep net m dir).1.length)).1,
           (fetchSpecCancel net (fun _ => false) rest
              (downloadStep net m dir).2
              (k + (downloadStep net m dir).1.length)).2)) =
        download_mods net (m :: rest) dir
      rw [if_neg (by simp), ih]
      rfl
  · cases cancelSet <;> simp [mainDownloadStage]

/-! ## BuildSource: `fetch_mod_list` (claim C7) -/

/-- The dictionary built for a regular entry in `fetch_mod_list`, with the
`.get` defaults of the source. -/
def mkMod (e : RawEntry) : Mod :=
  { name := e.name
    pretty_name := e.pretty_name.getD e.name
    url := e.url
    md5 := e.md5
    version := e.version.getD "unknown".toList
    author := e.author.getD "unknown".toList
    link := e.link.getD [] }

/-- The dictionary built for the forge entry: same fields, but the version
string has every dash replaced by a dot. -/
def mkForgeMod (e : RawEntry) : Mod :=
  { mkMod e with
    version := pyReplace (e.version.getD "unknown".toList) ['-'] ['.'] }

/-- The forge branch guard of `fetch_mod_list`:
`"forges" in mod_url and mod_name == "forge"` on the lowercased fields. -/
def isForgeEntry (e : RawEntry) : Bool :=
  containsSub (pyLower e.url) "forges".toList &&
    (pyLower e.name == "forge".toList)

/-- The non-mod branch guard: `"others" in mod_url` on the lowercased URL. -/
def isOthersEntry (e : RawEntry) : Bool :=
  containsSub (pyLower e.url) "others".toList

/-- `fetch_mod_list` from `main.py`: partition the raw entries into
(mod_list, non_mod_list, forge_list), preserving order. -/
def fetch_mod_list : List RawEntry → List Mod × List Mod × List Mod
  | [] => ([], [], [])
  | e :: rest =>
    let r := fetch_mod_list rest
    if isForgeEntry e then (r.1, r.2.1, mkForgeMod e :: r.2.2)
    else if isOthersEntry e then (r.1, mkMod e :: r.2.1, r.2.2)
    else (mkMod e :: r.1, r.2.1, r.2.2)

theorem fetch_mod_list_eq (entries : List RawEntry) :
    fetch_mod_list entries =
      ((entries.filter
          (fun e => !isForgeEntry e && !isOthersEntry e)).map mkMod,
       (entries.filter
          (fun e => !isForgeEntry e && isOthersEntry e)).map mkMod,
       (entries.filter (fun e => isForgeEntry e)).map mkForgeMod) := by
  induction entries with
  | nil => rfl
  | cons e rest ih =>
    cases hf : isForgeEntry e <;> cases ho : isOthersEntry e <;>
      simp only [fetch_mod_list, ih, hf, ho, List.filter_cons, Bool.not_true,
        Bool.not_false, Bool.true_and, Bool.false_and, Bool.and_self,
        Bool.and_true, Bool.and_false, if_true, if_false, Bool.true_eq_false,
        Bool.false_eq_true, List.map_cons]

theorem three_way_filter_length (entries : List RawEntry) :
    (entries.filter
        (fun e => !isForgeEntry e && !isOthersEntry e)).length +
    (entries.filter
        (fun e => !isForgeEntry e && isOthersEntry e)).length +
    (entries.filter (fun e => isForgeEntry e)).length = entries.length := by
  induction entries with
  | nil => rfl
  | cons e rest ih =>
    cases hf : isForgeEntry e <;> cases ho : isOthersEntry e <;>
      simp only [List.filter_cons, hf, ho, Bool.not_true, Bool.not_false,
        Bool.true_and, Bool.false_and, Bool.and_self, Bool.and_true,
        Bool.and_false, if_true, if_false, Bool.true_eq_false,
        Bool.false_eq_true, List.length_cons] <;> omega

/-- A raw entry whose URL is under a `forges` path but whose name is not
`forge`. -/
def forgesNotForge : RawEntry :=
  { name := "NotForge".toList
    url := "http://host/forges/tool-1.2.zip".toList
    md5 := "eeff".toList
    pretty_name := none
    version := some "1-2".toList
    author := none
    link := none }

/-- Counterexample to C7 as stated: an entry whose source URL is under a
`forges` path but whose name is not `forge` does not become the loader
descriptor; `fetch_mod_list` files it as a regular mod (the forge branch also
requires the entry name to equal `forge`). -/
theorem C7_counterexample :
    containsSub (pyLower forgesNotForge.url) "forges".toList = true ∧
    (fetch_mod_list [forgesNotForge]).2.2 = [] ∧
    (fetch_mod_list [forgesNotForge]).1 = [mkMod forgesNotForge] := by
  refine ⟨by decide, by decide, by decide⟩

/-- **C7 (amended).** `fetch_mod_list` partitions the raw entries into three
order-preserving categories: entries whose URL contains `forges` AND whose
name (case-insensitively) equals `forge` become the loader descriptor with
dashes of the version replaced by dots; of the remaining entries, those whose
URL contains `others` become non-mod assets; everything else is a regular
mod.  The three categories partition the entry list. -/
theorem C7_amended (entries : List RawEntry) :
    fetch_mod_list entries =
      ((entries.filter
          (fun e => !isForgeEntry e && !isOthersEntry e)).map mkMod,
       (entries.filter
          (fun e => !isForgeEntry e && isOthersEntry e)).map mkMod,
       (entries.filter (fun e => isForgeEntry e)).map mkForgeMod) ∧
    (fetch_mod_list entries).1.length + (fetch_mod_list entries).2.1.length +
      (fetch_mod_list entries).2.2.length = entries.length ∧
    ∀ f ∈ (fetch_mod_list entries).2.2, ∃ e ∈ entries,
      isForgeEntry e = true ∧
      f.version = pyReplace (e.version.getD "unknown".toList) ['-'] ['.'] := by
  refine ⟨fetch_mod_list_eq entries, ?_, ?_⟩
  · rw [fetch_mod_list_eq entries]
    simp only [List.length_map]
    exact three_way_filter_length entries
  · intro f hf
    rw [fetch_mod_list_eq entries] at hf
    simp only [List.mem_map, List.mem_filter] at hf
    obtain ⟨e, ⟨he, hfe⟩, rfl⟩ := hf
    exact ⟨e, he, hfe, rfl⟩

/-! ## IndexResolver: per-mod file selection (claim C1)

A metadata response's file entry is `{gameVersions, filename, fileId}` — the
shape delivered by the primary endpoint (after key coalescing) and the shape
into which `fetch_mod_details` transposes the backup endpoint's response. -/

structure IndexFile where
  gameVersions : List Str
  filename : Str
  fileId : Nat
deriving DecidableEq, Repr

/-- The source's separator stripping `.replace('-','').replace('.','')`. -/
def cleanVersion (s : Str) : Str := pyReplace (pyReplace s ['-'] []) ['.'] []

/-- The four `version_patterns` tried by `check_mod_availability`: the mod
version itself, the platform version prepended, the separator-stripped mod
version, and the mod version with the platform version removed. -/
def versionPatterns (mc modv : Str) : List Str :=
  [modv, mc ++ modv, cleanVersion modv, pyReplace modv mc []]

/-- The per-file acceptance test of the primary resolver
`check_mod_availability`: the file's platform list must contain the target
version and some pattern must occur in the separator-stripped lowercased
filename. -/
def primaryFileMatch (mc modv : Str) (f : IndexFile) : Bool :=
  if f.gameVersions.contains mc then
    (versionPatterns mc modv).any
      (fun p => containsSub (cleanVersion (pyLower (pyStrip f.filename))) p)
  else false

/-- The file selected for one mod by `check_mod_availability`: the
earliest-listed file passing `primaryFileMatch` (the loops break on the first
hit); `none` sends the mod to the unavailable list.  There is no fallback
tier in the primary resolver. -/
def check_mod_availability_select (mc vRaw : Str) (files : List IndexFile) :
    Option IndexFile :=
  files.find? (primaryFileMatch mc (pyLower (pyStrip vRaw)))

/-- One mod's file matching inside `backup_check_mod_availability`, mirroring
the source's loops: the exact loop (platform list contains the target and the
lowercased filename contains the mod version), then `closest_version` (the
first file whose filename contains the mod version, else the first file whose
platform list contains the target).  The boolean records whether the
closest-match caveat (ERROR 023) is printed, which the source does exactly
when `closest_version` is used. -/
def backupMatchStep (mc vRaw : Str) (files : List IndexFile) :
    Option (IndexFile × Bool) :=
  match files.find? (fun f => f.gameVersions.contains mc &&
      containsSub (pyLower (pyStrip f.filename)) (pyLower (pyStrip vRaw))) with
  | some f => some (f, false)
  | none =>
    match files.find? (fun f =>
        containsSub (pyLower (pyStrip f.filename))
          (pyLower (pyStrip vRaw))) with
    | some f => some (f, true)
    | none =>
      match files.find? (fun f => f.gameVersions.contains mc) with
      | some f => some (f, true)
      | none => none

/-- The match tier of the claimed selection procedure. -/
inductive MatchTier where
  | exactMatch
  | fallbackVersion
  | fallbackPlatform
deriving DecidableEq, Repr

/-- Modelled from the spec's words (claim C1): select the earliest-listed
file whose declared platform-version list contains the target platform
version AND whose filename contains the mod's version string
(case-insensitive substring); failing that, fallback (a): the first file
whose filename contains the version string regardless of platform version;
else fallback (b): the first file whose platform list contains the target
regardless of the version string. -/
def specTieredSelect (mc vRaw : Str) (files : List IndexFile) :
    Option (IndexFile × MatchTier) :=
  match files.find? (fun f => f.gameVersions.contains mc &&
      containsSub (pyLower (pyStrip f.filename)) (pyLower (pyStrip vRaw))) with
  | some f => some (f, MatchTier.exactMatch)
  | none =>
    match files.find? (fun f =>
        containsSub (pyLower (pyStrip f.filename))
          (pyLower (pyStrip vRaw))) with
    | some f => some (f, MatchTier.fallbackVersion)
    | none =>
      match files.find? (fun f => f.gameVersions.contains mc) with
      | some f => some (f, MatchTier.fallbackPlatform)
      | none => none

/-- **C1 (amended).** The backup resolver implements exactly the claimed
three-tier earliest-listed selection and logs the compatibility caveat
exactly on fallback selections; a selection at any tier other than fallback
(a) always has the target platform version in its file's platform list; and
the primary resolver only ever selects a file whose platform list contains
the target (but it matches by normalized patterns, not plain substring, and
has no fallback tiers — see the counterexample). -/
theorem C1_amended (mc vRaw : Str) (files : List IndexFile) :
    backupMatchStep mc vRaw files =
      (specTieredSelect mc vRaw files).map
        (fun r => (r.1, decide (r.2 ≠ MatchTier.exactMatch))) ∧
    (∀ f t, specTieredSelect mc vRaw files = some (f, t) →
      t ≠ MatchTier.fallbackVersion → f.gameVersions.contains mc = true) ∧
    (∀ f, check_mod_availability_select mc vRaw files = some f →
      f.gameVersions.contains mc = true) := by
  refine ⟨?_, ?_, ?_⟩
  · unfold backupMatchStep specTieredSelect
    cases h1 : files.find? (fun f => f.gameVersions.contains mc &&
        containsSub (pyLower (pyStrip f.filename)) (pyLower (pyStrip vRaw)))
    · cases h2 : files.find? (fun f =>
          containsSub (pyLower (pyStrip f.filename)) (pyLower (pyStrip vRaw)))
      · cases h3 : files.find? (fun f => f.gameVersions.contains mc) <;> rfl
      · rfl
    · rfl
  · intro f t hsel ht
    unfold specTieredSelect at hsel
    cases h1 : files.find? (fun f => f.gameVersions.contains mc &&
        containsSub (pyLower (pyStrip f.filename))
          (pyLower (pyStrip vRaw))) with
    | some g =>
      rw [h1] at hsel
      cases hsel
      have hp := List.find?_some h1
      simp only [Bool.and_eq_true] at hp
      exact hp.1
    | none =>
      rw [h1] at hsel
      cases h2 : files.find? (fun f =>
          containsSub (pyLower (pyStrip f.filename))
            (pyLower (pyStrip vRaw))) with
      | some g =>
        rw [h2] at hsel
        cases hsel
        exact absurd rfl ht
      | none =>
        rw [h2] at hsel
        cases h3 : files.find? (fun f => f.gameVersions.contains mc) with
        | some g =>
          rw [h3] at hsel
          cases hsel
          have hp := List.find?_some h3
          exact hp
        | none =>
          rw [h3] at hsel
          cases hsel
  · intro f hsel
    have hp := List.find?_some hsel
    by_cases hc : f.gameVersions.contains mc = true
    · exact hc
    · unfold primaryFileMatch at hp
      rw [if_neg ?_] at hp
      · cases hp
      · intro hcc
        exact hc hcc

/-- The target platform version and mod version of the C1 counterexample. -/
def mc17 : Str := "1.7.10".toList

def v10 : Str := "1.0".toList

/-- A file listed first whose filename does not contain `1.0` but matches the
primary resolver's separator-stripped pattern. -/
def fNoSub : IndexFile :=
  { gameVersions := ["1.7.10".toList]
    filename := "mod-2.103.jar".toList
    fileId := 100 }

/-- A later file whose filename does contain `1.0`. -/
def fSub : IndexFile :=
  { gameVersions := ["1.7.10".toList]
    filename := "mod-1.0.jar".toList
    fileId := 101 }

/-- A file matching only the platform version. -/
def fPlatOnly : IndexFile :=
  { gameVersions := ["1.7.10".toList]
    filename := "x.jar".toList
    fileId := 102 }

/-- Counterexample to C1 as stated: (i) the primary resolver does not select
the earliest file whose platform list contains the target AND whose filename
contains the mod's version string — it picks `fNoSub` (whose filename does
not contain `1.0`) over `fSub`, because its pattern matching strips
separators; (ii) the primary resolver has no fallback: on a file list where
fallback (b) would select a file, it selects nothing. -/
theorem C1_counterexample :
    check_mod_availability_select mc17 v10 [fNoSub, fSub] = some fNoSub ∧
    specTieredSelect mc17 v10 [fNoSub, fSub] =
      some (fSub, MatchTier.exactMatch) ∧
    fNoSub ≠ fSub ∧
    check_mod_availability_select mc17 v10 [fPlatOnly] = none ∧
    specTieredSelect mc17 v10 [fPlatOnly] =
      some (fPlatOnly, MatchTier.fallbackPlatform) := by
  refine ⟨by decide, by decide, by decide, by decide, by decide⟩

/-- Witness for C1 (amended): at the counterexample inputs, the fallback (b)
selection indeed carries the target platform version, and the primary
selection's file also does. -/
theorem C1_amended_witness :
    fPlatOnly.gameVersions.contains mc17 = true ∧
    fNoSub.gameVersions.contains mc17 = true :=
  ⟨(C1_amended mc17 v10 [fPlatOnly]).2.1 fPlatOnly
      MatchTier.fallbackPlatform (by decide) (by decide),
   (C1_amended mc17 v10 [fNoSub, fSub]).2.2 fNoSub (by decide)⟩

/-! ## IndexResolver: the resolution batches (claim C2)

`fetch_mod_details` is abstracted by oracles.  Primary: `none` stands for
every case in which the source ends with `mod_details = None` (HTTP 404,
other non-200 status, transport exception), `some (id, files)` for an HTTP
200 response.  Backup: the three outcome shapes of the transposed lookup. -/

inductive FetchResult where
  /-- HTTP 200; the response transposed into `{id, files}`. -/
  | ok (id : Nat) (files : List IndexFile)
  /-- HTTP 404: `fetch_mod_details` returns `(False, "error")`. -/
  | notFound404
  /-- Transport exception or other non-200 status: `(None, "backup")`. -/
  | failed
deriving DecidableEq, Repr

/-- One mod's primary lookup in `check_mod_availability`: `some (pid, fid)`
when a file is selected, `none` when the mod has no slug, the primary lookup
fails, or no file matches. -/
def check_step (fetchP : Str → Option (Nat × List IndexFile))
    (slugs : Str → Option Str) (mc : Str) (m : Mod) : Option (Nat × Nat) :=
  match slugs m.name with
  | none => none
  | some slug =>
    match fetchP slug with
    | none => none
    | some (pid, files) =>
      match check_mod_availability_select mc m.version files with
      | some f => some (pid, f.fileId)
      | none => none

/-- `check_mod_availability` from `main.py`: the primary batch.  Every
per-mod failure (no slug, failed primary lookup, no matching file) merely
files the mod as unavailable and continues; the batch never aborts. -/
def check_mod_availability (fetchP : Str → Option (Nat × List IndexFile))
    (slugs : Str → Option Str) (mc : Str) :
    List Mod → List (Mod × Nat × Nat) × List Mod
  | [] => ([], [])
  | m :: rest =>
    let r := check_mod_availability fetchP slugs mc rest
    match check_step fetchP slugs mc m with
    | some pf => ((m, pf.1, pf.2) :: r.1, r.2)
    | none => (r.1, m :: r.2)

/-- Result of the backup batch: either the pair
(backup_available, still_unavailable) plus the names for which the
closest-match caveat was printed, or the `(False, False)` abort. -/
inductive BatchResult where
  | ok (backupAvailable : List (Mod × Nat × Nat))
      (stillUnavailable : List Mod) (caveats : List Str)
  | aborted
deriving DecidableEq, Repr

/-- `backup_check_mod_availability` from `main.py`: mods with no slug are
kept as still-unavailable and processing continues; a backup 404 aborts
(`api_source == "error"`), a failed backup lookup aborts (the
`mod_details and api_source == "backup"` guard fails), and a 200 response in
which neither the exact loop nor `closest_version` finds a file also aborts
(ERROR 022 after the fallback). -/
def backup_check_mod_availability (fetchB : Str → FetchResult)
    (slugs : Str → Option Str) (mc : Str) : List Mod → BatchResult
  | [] => .ok [] [] []
  | m :: rest =>
    match slugs m.name with
    | none =>
      match backup_check_mod_availability fetchB slugs mc rest with
      | .ok a s c => .ok a (m :: s) c
      | .aborted => .aborted
    | some slug =>
      match fetchB slug with
      | .notFound404 => .aborted
      | .failed => .aborted
      | .ok pid files =>
        match backupMatchStep mc m.version files with
        | some (f, false) =>
          match backup_check_mod_availability fetchB slugs mc rest with
          | .ok a s c => .ok ((m, pid, f.fileId) :: a) s c
          | .aborted => .aborted
        | some (f, true) =>
          match backup_check_mod_availability fetchB slugs mc rest with
          | .ok a s c => .ok ((m, pid, f.fileId) :: a) s (m.name :: c)
          | .aborted => .aborted
        | none => .aborted

/-- The per-mod condition on which the backup batch aborts. -/
def backupAbortsOn (fetchB : Str → FetchResult) (slugs : Str → Option Str)
    (mc : Str) (m : Mod) : Bool :=
  match slugs m.name with
  | none => false
  | some slug =>
    match fetchB slug with
    | .notFound404 => true
    | .failed => true
    | .ok _ files => (backupMatchStep mc m.version files).isNone

/-- The resolution stage of `main` (lines 776-785): run the primary batch;
if anything is unresolved, run the backup batch, and on its
`(False, False)` return `main` returns — no output archive is produced. -/
def resolutionStage (fetchP : Str → Option (Nat × List IndexFile))
    (fetchB : Str → FetchResult) (slugs : Str → Option Str) (mc : Str)
    (mods : List Mod) : Option (List (Mod × Nat × Nat) × List Mod) :=
  let r := check_mod_availability fetchP slugs mc mods
  if r.2.isEmpty then some r
  else
    match backup_check_mod_availability fetchB slugs mc r.2 with
    | .aborted => none
    | .ok a s _ => some (r.1 ++ a, s)

/-- **C2 (amended).** The backup batch aborts exactly when some mod with a
slug meets one of three conditions: the backup lookup returns a definitive
404, or it fails (transport error / other non-200 status), or it returns a
200 response in which neither the exact match nor either fallback selects a
file; mods with no slug never abort the batch.  The primary batch never
aborts: it files every mod as available or unavailable.  The whole
resolution stage produces no result (so no archive is built) exactly when
the backup batch aborted on the primary-unresolved mods. -/
theorem C2_amended (fetchP : Str → Option (Nat × List IndexFile))
    (fetchB : Str → FetchResult) (slugs : Str → Option Str) (mc : Str)
    (mods : List Mod) :
    (backup_check_mod_availability fetchB slugs mc mods = .aborted ↔
      mods.any (backupAbortsOn fetchB slugs mc) = true) ∧
    ((check_mod_availability fetchP slugs mc mods).1.length +
      (check_mod_availability fetchP slugs mc mods).2.length =
        mods.length) ∧
    (resolutionStage fetchP fetchB slugs mc mods = none ↔
      ((check_mod_availability fetchP slugs mc mods).2 ≠ [] ∧
        backup_check_mod_availability fetchB slugs mc
          (check_mod_availability fetchP slugs mc mods).2 = .aborted)) := by
  refine ⟨?_, ?_, ?_⟩
  · induction mods with
    | nil => simp [backup_check_mod_availability]
    | cons m rest ih =>
      show (match slugs m.name with
        | none =>
          match backup_check_mod_availability fetchB slugs mc rest with
          | .ok a s c => BatchResult.ok a (m :: s) c
          | .aborted => .aborted
        | some slug =>
          match fetchB slug with
          | .notFound404 => .aborted
          | .failed => .aborted
          | .ok pid files =>
            match backupMatchStep mc m.version files with
            | some (f, false) =>
              match backup_check_mod_availability fetchB slugs mc rest with
              | .ok a s c => BatchResult.ok ((m, pid, f.fileId) :: a) s c
              | .aborted => .aborted
            | some (f, true) =>
              match backup_check_mod_availability fetchB slugs mc rest with
              | .ok a s c =>
                BatchResult.ok ((m, pid, f.fileId) :: a) s (m.name :: c)
              | .aborted => .aborted
            | none => .aborted) = BatchResult.aborted ↔ _
      rw [List.any_cons]
      cases hslug : slugs m.name with
      | none =>
        simp only [backupAbortsOn, hslug, Bool.false_or]
        cases hrest : backup_check_mod_availability fetchB slugs mc rest with
        | ok a s c =>
          simp only [hrest] at ih ⊢
          simpa using ih
        | aborted =>
          simp only [hrest] at ih ⊢
          simpa using ih
      | some slug =>
        cases hfb : fetchB slug with
        | notFound404 => simp [backupAbortsOn, hslug, hfb]
        | failed => simp [backupAbortsOn, hslug, hfb]
        | ok pid files =>
          cases hms : backupMatchStep mc m.version files with
          | none => simp [backupAbortsOn, hslug, hfb, hms]
          | some fc =>
            obtain ⟨f, c⟩ := fc
            cases c <;>
              · simp only [backupAbortsOn, hslug, hfb, hms, Option.isNone_some,
                  Bool.false_or]
                cases hrest :
                    backup_check_mod_availability fetchB slugs mc rest with
                | ok a s cv =>
                  simp only [hrest] at ih ⊢
                  simpa using ih
                | aborted =>
                  simp only [hrest] at ih ⊢
                  simpa using ih
  · induction mods with
    | nil => rfl
    | cons m rest ih =>
      have hcons : check_mod_availability fetchP slugs mc (m :: rest) =
          (match check_step fetchP slugs mc m with
          | some pf =>
            ((m, pf.1, pf.2) ::
                (check_mod_availability fetchP slugs mc rest).1,
              (check_mod_availability fetchP slugs mc rest).2)
          | none => ((check_mod_availability fetchP slugs mc rest).1,
              m :: (check_mod_availability fetchP slugs mc rest).2)) := rfl
      rw [hcons]
      cases hstep : check_step fetchP slugs mc m with
      | none =>
        show (check_mod_availability fetchP slugs mc rest).1.length +
          (m :: (check_mod_availability fetchP slugs mc rest).2).length =
            rest.length + 1
        simp only [List.length_cons]
        omega
      | some pf =>
        show ((m, pf.1, pf.2) ::
            (check_mod_availability fetchP slugs mc rest).1).length +
          (check_mod_availability fetchP slugs mc rest).2.length =
            rest.length + 1
        simp only [List.length_cons]
        omega
  · unfold resolutionStage
    cases hu : (check_mod_availability fetchP slugs mc mods).2 with
    | nil => simp [hu]
    | cons u us =>
      simp only [List.isEmpty_cons, Bool.false_eq_true, if_false]
      cases hb : backup_check_mod_availability fetchB slugs mc
          (u :: us) with
      | ok a s c => simp [hu, hb]
      | aborted => simp [hu, hb]

/-- The oracles of the C2 counterexample: every mod maps to the slug
`examplemod`, the primary lookup fails, and the backup lookup returns an
HTTP 200 response with an empty file list (so no tier matches). -/
def slugsCx (_ : Str) : Option Str := some "examplemod".toList

def fetchPCx (_ : Str) : Option (Nat × List IndexFile) := none

def fetchBCx (_ : Str) : FetchResult := .ok 7 []

/-- Counterexample to C2 as stated: the whole resolution batch aborts (no
archive is produced) although the backup endpoint never returned a 404 — the
mod's backup lookup succeeded with HTTP 200 but no file matched, which is a
second per-item condition that aborts the batch (a failed backup lookup is a
third). -/
theorem C2_counterexample :
    resolutionStage fetchPCx fetchBCx slugsCx mc17 [mA] = none ∧
    fetchBCx "examplemod".toList = FetchResult.ok 7 [] ∧
    FetchResult.ok 7 [] ≠ FetchResult.notFound404 := by
  refine ⟨by decide, rfl, by decide⟩

/-! ## PackageAssembler: `extract_and_copy_file` (claim C8)

The overrides tree is a store from paths (component lists) to contents.  An
archive is a list of (internal path, content) entries; `extractall` writes
them in order, overwriting existing destination entries, each at its
archive-internal path below the extraction root. -/

abbrev Path := List Str

/-- `zipfile.ZipFile.extractall(base)`. -/
def extractAll (fs : List (Path × Str)) (base : Path)
    (entries : List (Path × Str)) : List (Path × Str) :=
  entries.foldl (fun acc e => storeWrite acc (base ++ e.1) e.2) fs

/-- `extract_and_copy_file` from `main.py`: copy the archive into the
overrides tree (`shutil.copy2` to `overrides_dir/basename`), extract
everything in place, then delete the transient copy (`os.remove`). -/
def extract_and_copy_file (fs : List (Path × Str)) (overrides : Path)
    (zipBase : Str) (zipContent : Str) (entries : List (Path × Str)) :
    List (Path × Str) :=
  storeErase
    (extractAll (storeWrite fs (overrides ++ [zipBase]) zipContent)
      overrides entries)
    (overrides ++ [zipBase])

theorem extractAll_lookup_notin (fs : List (Path × Str)) (base : Path)
    (entries : List (Path × Str)) (q : Path)
    (hq : q ∉ entries.map (fun e => base ++ e.1)) :
    (extractAll fs base entries).lookup q = fs.lookup q := by
  induction entries generalizing fs with
  | nil => rfl
  | cons e rest ih =>
    simp only [List.map_cons, List.mem_cons, not_or] at hq
    show (extractAll (storeWrite fs (base ++ e.1) e.2) base rest).lookup q = _
    rw [ih _ hq.2, lookup_storeWrite_ne _ _ _ _ (fun h => hq.1 h.symm)]

theorem extractAll_lookup_mem (fs : List (Path × Str)) (base : Path)
    (entries : List (Path × Str)) (p : Path) (c : Str)
    (hnodup : (entries.map Prod.fst).Nodup)
    (hmem : (p, c) ∈ entries) :
    (extractAll fs base entries).lookup (base ++ p) = some c := by
  induction entries generalizing fs with
  | nil => cases hmem
  | cons e rest ih =>
    rw [List.map_cons] at hnodup
    have hnd := List.nodup_cons.mp hnodup
    rcases List.mem_cons.mp hmem with heq | hmem2
    · have hp : e.1 = p := by rw [← heq]
      have hc : e.2 = c := by rw [← heq]
      have hnot : (base ++ p) ∉ rest.map (fun e2 => base ++ e2.1) := by
        intro hmm
        obtain ⟨e2, he2, heqq⟩ := List.mem_map.mp hmm
        have : e2.1 = p := List.append_cancel_left heqq
        exact hnd.1 (hp ▸ this ▸ List.mem_map.mpr ⟨e2, he2, rfl⟩)
      show (extractAll (storeWrite fs (base ++ e.1) e.2) base rest).lookup
        (base ++ p) = some c
      rw [extractAll_lookup_notin _ _ _ _ hnot, hp, hc,
        lookup_storeWrite_self]
    · exact ih (storeWrite fs (base ++ e.1) e.2) hnd.2 hmem2

/-- **C8.** For a bundle candidate extracted by `extract_and_copy_file`
(archive entry paths pairwise distinct, and no entry named like the archive
itself): every archive entry ends up at its internal path below the
overrides root — in particular an entry under a nested mods-subfolder ends
up merged into the overrides mods folder, and any other entry is merged at
the overrides root — existing destination entries are overwritten, untouched
paths are preserved, and the transient archive copy is deleted. -/
theorem C8_bundle_extraction (fs : List (Path × Str)) (overrides : Path)
    (zipBase zipContent : Str) (entries : List (Path × Str))
    (hnodup : (entries.map Prod.fst).Nodup)
    (hzb : [zipBase] ∉ entries.map Prod.fst) :
    (∀ p c, (p, c) ∈ entries →
      (extract_and_copy_file fs overrides zipBase zipContent
        entries).lookup (overrides ++ p) = some c) ∧
    (∀ p c rest2, (p, c) ∈ entries → p = "mods".toList :: rest2 →
      (extract_and_copy_file fs overrides zipBase zipContent
        entries).lookup ((overrides ++ ["mods".toList]) ++ rest2) = some c) ∧
    (extract_and_copy_file fs overrides zipBase zipContent
      entries).lookup (overrides ++ [zipBase]) = none ∧
    (∀ q, q ∉ entries.map (fun e => overrides ++ e.1) →
      q ≠ overrides ++ [zipBase] →
      (extract_and_copy_file fs overrides zipBase zipContent
        entries).lookup q = fs.lookup q) := by
  have hmain : ∀ p c, (p, c) ∈ entries →
      (extract_and_copy_file fs overrides zipBase zipContent
        entries).lookup (overrides ++ p) = some c := by
    intro p c hmem
    have hpzb : p ≠ [zipBase] := by
      intro hh
      exact hzb (hh ▸ List.mem_map.mpr ⟨(p, c), hmem, rfl⟩)
    have hne : overrides ++ [zipBase] ≠ overrides ++ p := by
      intro hh
      exact hpzb (List.append_cancel_left hh).symm
    unfold extract_and_copy_file
    rw [lookup_storeErase_ne _ _ _ hne]
    exact extractAll_lookup_mem _ _ _ _ _ hnodup hmem
  refine ⟨hmain, ?_, ?_, ?_⟩
  · intro p c rest2 hmem hp
    have := hmain p c hmem
    rw [hp] at this
    rw [List.append_assoc]
    exact this
  · exact lookup_storeErase_self _ _
  · intro q hq hqzb
    unfold extract_and_copy_file
    rw [lookup_storeErase_ne _ _ _ (fun h => hqzb h.symm),
      extractAll_lookup_notin _ _ _ _ hq,
      lookup_storeWrite_ne _ _ _ _ (fun h => hqzb h.symm)]

/-- Witness for C8: a two-entry archive (one entry under `mods`, one under
`config`) extracted into an overrides tree that already holds an older copy
of the config entry: the mods entry lands in the overrides mods folder, the
config entry overwrites the pre-existing one at the overrides root, and the
transient archive copy is gone. -/
theorem C8_bundle_extraction_witness :
    (extract_and_copy_file
        [(["overrides".toList, "config".toList, "c.cfg".toList], "old".toList)]
        ["overrides".toList] "pack.zip".toList "zzz".toList
        [(["mods".toList, "a.jar".toList], "AAA".toList),
         (["config".toList, "c.cfg".toList], "CCC".toList)]).lookup
      (["overrides".toList, "mods".toList, "a.jar".toList]) =
        some "AAA".toList ∧
    (extract_and_copy_file
        [(["overrides".toList, "config".toList, "c.cfg".toList], "old".toList)]
        ["overrides".toList] "pack.zip".toList "zzz".toList
        [(["mods".toList, "a.jar".toList], "AAA".toList),
         (["config".toList, "c.cfg".toList], "CCC".toList)]).lookup
      (["overrides".toList, "config".toList, "c.cfg".toList]) =
        some "CCC".toList ∧
    (extract_and_copy_file
        [(["overrides".toList, "config".toList, "c.cfg".toList], "old".toList)]
        ["overrides".toList] "pack.zip".toList "zzz".toList
        [(["mods".toList, "a.jar".toList], "AAA".toList),
         (["config".toList, "c.cfg".toList], "CCC".toList)]).lookup
      (["overrides".toList, "pack.zip".toList]) = none := by
  have h := C8_bundle_extraction
    [(["overrides".toList, "config".toList, "c.cfg".toList], "old".toList)]
    ["overrides".toList] "pack.zip".toList "zzz".toList
    [(["mods".toList, "a.jar".toList], "AAA".toList),
     (["config".toList, "c.cfg".toList], "CCC".toList)]
    (by decide) (by decide)
  exact ⟨h.1 _ _ (by decide), h.1 _ _ (by decide), h.2.2.1⟩

/-! ## Rate limiting: the `rate_limited` gate (claim C9)

`@rate_limited(5)` wraps `fetch_mod_details` once, so primary and backup
lookups — every metadata lookup in the process — pass through the single
resulting closure; its state is the shared `last_called` timestamp.  Time is
modelled by the rationals: calls are strictly sequential, so the gate's trace
is a list of (arrival time, wrapped-call duration) events. -/

structure CallEvent where
  arrival : ℚ
  duration : ℚ
deriving Repr

/-- `min_interval = 1.0 / max_per_second`. -/
def minInterval (maxPerSecond : ℚ) : ℚ := 1 / maxPerSecond

/-- One pass through `rate_limited_function`: with `elapsed = arrival -
last_called`, sleep `min_interval - elapsed` when that is positive, then call
the wrapped function. -/
def gateStart (interval last arrival : ℚ) : ℚ :=
  if 0 < interval - (arrival - last) then
    arrival + (interval - (arrival - last))
  else arrival

/-- The trace of (call start, call end) times produced by pushing the events
through the gate; `last_called` is updated to the time the wrapped call
returns. -/
def runGate (interval : ℚ) : ℚ → List CallEvent → List (ℚ × ℚ)
  | _, [] => []
  | last, e :: rest =>
    (gateStart interval last e.arrival,
      gateStart interval last e.arrival + e.duration) ::
      runGate interval (gateStart interval last e.arrival + e.duration) rest

theorem gateStart_ge (interval last arrival : ℚ) :
    last + interval ≤ gateStart interval last arrival := by
  unfold gateStart
  split
  · linarith
  · linarith [not_lt.mp (by assumption)]

/-- **C9.** Every pair of consecutive metadata-lookup calls through the
shared rate-limit gate has its start times separated by at least the minimum
interval of the gate — `1/5` second for the configured 5 requests per
second — for any arrival times, provided wrapped calls take nonnegative
time. -/
theorem C9_rate_gate (evs : List CallEvent) (last : ℚ)
    (hdur : ∀ e ∈ evs, 0 ≤ e.duration) :
    List.Chain' (fun a b : ℚ × ℚ => a.1 + minInterval 5 ≤ b.1)
      (runGate (minInterval 5) last evs) ∧
    minInterval 5 = 1 / 5 := by
  refine ⟨?_, rfl⟩
  induction evs generalizing last with
  | nil => exact List.chain'_nil
  | cons e rest ih =>
    cases rest with
    | nil => simp [runGate]
    | cons e2 rest2 =>
      have hd : 0 ≤ e.duration := hdur e (List.mem_cons_self e _)
      have hih := ih
        (gateStart (minInterval 5) last e.arrival + e.duration)
        (fun x hx => hdur x (List.mem_cons_of_mem e hx))
      show List.Chain' _
        ((gateStart (minInterval 5) last e.arrival, _) ::
          (gateStart (minInterval 5)
              (gateStart (minInterval 5) last e.arrival + e.duration)
              e2.arrival, _) :: _)
      rw [List.chain'_cons]
      refine ⟨?_, hih⟩
      have hstep := gateStart_ge (minInterval 5)
        (gateStart (minInterval 5) last e.arrival + e.duration) e2.arrival
      linarith

/-- Witness for C9: a concrete two-call trace (the second call arriving only
a tenth of a second after the first) passes the gate with consecutive starts
at least a fifth of a second apart. -/
theorem C9_rate_gate_witness :
    List.Chain' (fun a b : ℚ × ℚ => a.1 + minInterval 5 ≤ b.1)
      (runGate (minInterval 5) 0
        [{ arrival := 0, duration := 1/20 },
         { arrival := 1/10, duration := 0 }]) ∧
    minInterval 5 = 1 / 5 :=
  C9_rate_gate
    [{ arrival := 0, duration := 1/20 }, { arrival := 1/10, duration := 0 }]
    0
    (by
      intro e he
      rcases List.mem_cons.mp he with rfl | he2
      · norm_num
      · rcases List.mem_cons.mp he2 with rfl | he3
        · norm_num
        · cases he3)

/-- Witness for C2 (amended): at the counterexample oracles, the abort
characterization concretely classifies the one-mod batch as aborted. -/
theorem C2_amended_witness :
    backup_check_mod_availability fetchBCx slugsCx mc17 [mA] =
      BatchResult.aborted :=
  (C2_amended fetchPCx fetchBCx slugsCx mc17 [mA]).1.mpr (by decide)

/-- Witness for C3 (amended): the second run on the concrete empty-cache
instance returns the first run's state and download set and removes
nothing. -/
theorem C3_amended_witness :
    compare_mods (compare_mods [] [mA]).1 [mA] =
      ((compare_mods [] [mA]).1, (compare_mods [] [mA]).2.1, []) :=
  C3_amended [] [mA]

/-- Witness for C6 (amended): on the concrete five-mod batch, the code's
fetch coincides with the spec-modelled fetch under a never-raised signal. -/
theorem C6_amended_witness :
    fetchSpecCancel netOk (fun _ => false) mods5 [] 0 =
      download_mods netOk mods5 [] :=
  (C6_amended netOk false mods5 [] 0).1

/-- Witness for C7 (amended): the single-entry manifest of the
counterexample partitions into exactly one descriptor overall. -/
theorem C7_amended_witness :
    (fetch_mod_list [forgesNotForge]).1.length +
      (fetch_mod_list [forgesNotForge]).2.1.length +
      (fetch_mod_list [forgesNotForge]).2.2.length = 1 :=
  (C7_amended [forgesNotForge]).2.1

/-- Witness for C10: idempotence and cleanliness at a concrete URL. -/
theorem C10_sanitize_witness :
    sanitize_filename (sanitize_filename mA.url) = sanitize_filename mA.url :=
  (C10_sanitize_idempotent_and_clean mA.url).1

end Solder
